import Mathlib

/-!
Verification of the uhub core (src/core/commands.c and src/hubio.c):
the receive buffer, the send queue, the chat-command parser, the command
registry and the command dispatcher, with the command handlers.

Bytes are modelled as natural numbers, C strings as Lean strings
(lists of characters), and the side effects of the handlers (routing a
status message, disconnecting a user, recording a ban, signalling the
hub status) as an explicit ordered list of effects.
-/

namespace Uhub

/-! ## Command parser (command_create in src/core/commands.c) -/

/-- Whitespace class used by split_string(message, "\\s", ...). -/
def isSpace (c : Char) : Bool :=
  c = ' ' || c = '\t' || c = '\n' || c = '\r'

/-- Accumulator-passing worker for whitespace tokenisation: consecutive
separators are collapsed, so no empty token is ever produced. -/
def splitWsGo : List Char → List Char → List String
  | [], acc => if acc.isEmpty then [] else [String.mk acc.reverse]
  | c :: cs, acc =>
    if isSpace c then
      if acc.isEmpty then splitWsGo cs [] else String.mk acc.reverse :: splitWsGo cs []
    else
      splitWsGo cs (c :: acc)

/-- Tokenisation of a chat line on runs of whitespace, as done by
split_string with the "\\s" class. -/
def splitWs (s : String) : List String :=
  splitWsGo s.data []

/-- Parsed command: struct hub_command.  The prefix is an owned string
(the first token with its first character removed), the arguments are
the remaining tokens in order.  The field name avoids the Lean keyword. -/
structure HubCommand where
  prefixStr : String
  args : List String
deriving Repr, DecidableEq

/-- Embedding of command_create: tokenise the message; fail when there is
no token or the first token is shorter than two characters
(the C test prefix[0] && prefix[1]); otherwise strip the first character
of the first token (hub_strdup(&prefix[1])) and keep the remaining tokens
as the argument list.  Note that the C code never compares the first
character with the command marker. -/
def command_create (message : String) : Option HubCommand :=
  match splitWs message with
  | [] => none
  | t :: rest =>
    match t.data with
    | _ :: _ :: _ => some ⟨String.mk (t.data.drop 1), rest⟩
    | _ => none

/-! ## Receive buffer (hub_recvq in src/hubio.c) -/

/-- Receive queue state: struct hub_recvq.  The C code keeps a buffer
pointer and a size with buf = NULL exactly when size = 0; both are
represented by the byte list, the empty list standing for the empty
buffer. -/
structure HubRecvq where
  buf : List Nat
deriving Repr, DecidableEq

/-- Embedding of hub_recvq_set: free any previously held buffer, then
store a copy of the given bytes; storing the empty sequence leaves the
queue empty and returns 0.  (The malloc-failure branch is not modelled:
allocation is assumed to succeed.)  Returns the new state and the
returned byte count. -/
def hub_recvq_set (_q : HubRecvq) (bytes : List Nat) : HubRecvq × Nat :=
  if bytes.length = 0 then (⟨[]⟩, 0)
  else (⟨bytes⟩, bytes.length)

/-- Embedding of hub_recvq_get: when the queue holds bytes, hand them to
the caller and clear the queue; otherwise return no bytes.  Returns the
new state and the bytes copied out. -/
def hub_recvq_get (q : HubRecvq) : HubRecvq × List Nat :=
  if q.buf.length ≠ 0 then (⟨[]⟩, q.buf) else (q, [])

/-! ## Send queue (hub_sendq in src/hubio.c)

A queued adc_message is represented by its byte sequence (msg->cache,
with msg->length its length).  The write callback is a function from the
offered byte slice to the C int it returns: a positive value is the
number of bytes it accepted, a value ≤ 0 means would-block or error. -/

/-- Send queue state: struct hub_sendq.  queue is the list of pending
messages in order, size the byte total maintained by add/remove, offset
the number of bytes of the head message already transmitted. -/
structure HubSendq where
  queue : List (List Nat)
  size : Nat
  offset : Nat
deriving Repr

/-- Embedding of hub_sendq_add: append the message, add its full length
to size.  (The reference count taken by adc_msg_incref is not modelled:
messages are immutable values here.) -/
def hub_sendq_add (q : HubSendq) (msg : List Nat) : HubSendq :=
  { queue := q.queue ++ [msg], size := q.size + msg.length, offset := q.offset }

/-- Worker for the hub_sendq_send loop, structurally recursive on the
message list.  For each head message it offers the unsent slice
cache[offset .. length) to the write function; a return ≤ 0 stops the
loop, a short write stops after advancing offset, and a write reaching
the end of the message removes it (hub_sendq_remove: size decreases by
the message length, offset resets to 0) and continues with the next one.
Returns (remaining queue, new offset, bytes removed from size,
bytes_sent, bytes actually handed to the write function in order). -/
def sendqSendGo (w : List Nat → Int) :
    List (List Nat) → Nat → List (List Nat) × Nat × Nat × Nat × List Nat
  | [], off => ([], off, 0, 0, [])
  | m :: rest, off =>
    let slice := (m.drop off).take (m.length - off)
    let ret := w slice
    if ret ≤ 0 then (m :: rest, off, 0, 0, [])
    else
      let r := ret.toNat
      if off + r < m.length then (m :: rest, off + r, 0, r, slice.take r)
      else
        let (qs, off2, removed, sent, wire) := sendqSendGo w rest 0
        (qs, off2, removed + m.length, r + sent, slice.take r ++ wire)

/-- Embedding of hub_sendq_send.  Returns the new queue state, the
bytes_sent return value, and (as an observation) the concatenation of
the byte slices the write function consumed. -/
def hub_sendq_send (q : HubSendq) (w : List Nat → Int) : HubSendq × Nat × List Nat :=
  let (qs, off, removed, sent, wire) := sendqSendGo w q.queue q.offset
  ({ queue := qs, size := q.size - removed, offset := off }, sent, wire)

/-- Embedding of hub_sendq_is_empty. -/
def hub_sendq_is_empty (q : HubSendq) : Bool :=
  q.size = 0

/-- Embedding of hub_sendq_get_bytes: size - offset (size_t arithmetic;
offset never exceeds size along the modelled operation sequences, so
natural subtraction agrees with the C computation). -/
def hub_sendq_get_bytes (q : HubSendq) : Nat :=
  q.size - q.offset

/-- Bytes still owed to the peer by a queue/offset pair: the unsent part
of the head message followed by every later message. -/
def sendqRest : List (List Nat) → Nat → List Nat
  | [], _ => []
  | m :: rest, off => m.drop off ++ rest.flatten

/-- Write function that accepts every offered byte (a never-saturated
transport). -/
def acceptAll : List Nat → Int :=
  fun s => (s.length : Int)

/-- Write function that accepts exactly one byte per call when at least
one byte is offered. -/
def acceptOne : List Nat → Int :=
  fun s => if s.length = 0 then 0 else 1

/-- Iterated draining: call hub_sendq_send n times, collecting the bytes
handed to the write function across the calls. -/
def drainN (w : List Nat → Int) : Nat → HubSendq → HubSendq × List Nat
  | 0, q => (q, [])
  | n + 1, q =>
    let (q1, _, wire1) := hub_sendq_send q w
    let (q2, wire2) := drainN w n q1
    (q2, wire1 ++ wire2)

/-- Building a queue by enqueueing a list of messages in order. -/
def enqueueAll (msgs : List (List Nat)) : HubSendq :=
  msgs.foldl hub_sendq_add ⟨[], 0, 0⟩

/-- Write function bounded by its offer: it never claims to have
accepted more bytes than were offered.  Every real transport write
satisfies this. -/
def BoundedWriter (w : List Nat → Int) : Prop :=
  ∀ s : List Nat, (w s).toNat ≤ s.length

/-- Total byte length of a list of messages. -/
def sumLens (qs : List (List Nat)) : Nat :=
  (qs.map List.length).sum

/-- Offset well-formedness: the transmit offset never exceeds the head
message length and is 0 on an empty queue. -/
def sendqWfOff : List (List Nat) → Nat → Prop
  | [], off => off = 0
  | m :: _, off => off ≤ m.length

/-- Strict offset well-formedness: the offset is strictly below the head
length, the state the C loop maintains by removing a fully-sent head at
once. -/
def sendqWfOffS : List (List Nat) → Nat → Prop
  | [], off => off = 0
  | m :: _, off => off < m.length

/-- Sequence of send-queue operations driven by the owning connection:
either enqueue a message or drain with a write function. -/
inductive SendqOp where
  | enq (m : List Nat)
  | drain (w : List Nat → Int)

/-- Run a sequence of operations from a given state while accounting, on
the side, for the total bytes enqueued and the total bytes the write
functions have accepted (the accumulated bytes_sent return values). -/
def runSendOps : HubSendq × Nat × Nat → List SendqOp → HubSendq × Nat × Nat
  | st, [] => st
  | (q, te, ta), SendqOp.enq m :: ops => runSendOps (hub_sendq_add q m, te + m.length, ta) ops
  | (q, te, ta), SendqOp.drain w :: ops =>
    runSendOps ((hub_sendq_send q w).1, te, ta + (hub_sendq_send q w).2.1) ops

/-- Every drain in the sequence uses a write function that never
over-reports. -/
def BoundedOps (ops : List SendqOp) : Prop :=
  ∀ op ∈ ops, ∀ w, op = SendqOp.drain w → BoundedWriter w

/-- Invariant tying the byte accounting to the queue contents: size is
the sum of the queued message lengths, the offset stays within the head
message and within size, and accepted-bytes plus owed-bytes equals
enqueued-bytes. -/
def sendqAccounting (st : HubSendq × Nat × Nat) : Prop :=
  st.1.size = sumLens st.1.queue ∧ sendqWfOff st.1.queue st.1.offset ∧
  st.1.offset ≤ st.1.size ∧ st.2.2 + (st.1.size - st.1.offset) = st.2.1

/-! ## Credentials, users, effects (collaborators of src/core/commands.c) -/

/-- Modelled from the spec: enum user_credentials is declared in a header
outside src/; the spec fixes a total order with
guest < operator < super-admin < admin, and the dispatcher compares
credentials with the integer order of the enum. -/
inductive UserCredentials where
  | cred_none
  | cred_guest
  | cred_user
  | cred_operator
  | cred_super
  | cred_admin
deriving Repr, DecidableEq

/-- Integer rank of a credential, the value the C enum comparison uses. -/
def credRank : UserCredentials → Nat
  | .cred_none => 0
  | .cred_guest => 1
  | .cred_user => 2
  | .cred_operator => 3
  | .cred_super => 4
  | .cred_admin => 5

/-- Connected user (struct hub_user), restricted to the fields the
command module reads: id.nick, id.cid, credentials, and the rendered
network address (ip_convert_to_string(&user->net.ipaddr)). -/
structure HubUser where
  nick : String
  cid : String
  credentials : UserCredentials
  ipaddr : String
deriving Repr, DecidableEq

/-- Process-wide status values written by the reload and shutdown
handlers. -/
inductive HubStatusSignal where
  | hub_status_restart
  | hub_status_shutdown
deriving Repr, DecidableEq

/-- Observable side effect of a handler, in execution order: a status
message routed to a user (send_message, before protocol escaping), a
forced disconnect (hub_disconnect_user with reason quit_kicked), an ACL
mutation (acl_user_ban_nick / acl_user_ban_cid), or the hub status
signal. -/
inductive Effect where
  | sendMsg (toNick : String) (text : String)
  | disconnect (nick : String)
  | banNick (nick : String)
  | banCid (cid : String)
  | setStatus (s : HubStatusSignal)
deriving Repr, DecidableEq

/-- Hub state read by the handlers (struct hub_info): the user registry
lookup (uman_get_user_by_nick), the statistics counters, and the elapsed
uptime in seconds (difftime(time(0), hub->tm_started)). -/
structure HubInfo where
  lookup : String → Option HubUser
  usersCount : Nat
  usersCountPeak : Nat
  netTx : Nat
  netRx : Nat
  netTxPeak : Nat
  netRxPeak : Nat
  uptimeSeconds : Nat

/-! ## Command registry and handlers (src/core/commands.c) -/

/-- Identifier of a built-in handler function, standing for the function
pointer stored in the registry.  The crash handler exists only under
CRASH_DEBUG (a DEBUG build) and is not part of the release table. -/
inductive CmdId where
  | help
  | stats
  | version
  | uptime
  | kick
  | ban
  | unban
  | reload
  | shutdown
  | myip
  | getip
deriving Repr, DecidableEq

/-- Registry entry: struct commands_handler.  argSpec mirrors the args
string (NULL becomes none); its length is the minimum argument count. -/
structure CommandsHandler where
  prefixStr : String
  length : Nat
  argSpec : Option String
  cred : UserCredentials
  tag : CmdId
  description : String
deriving Repr, DecidableEq

/-- The command_handlers table in declaration order.  The C array's
terminating sentinel entry (prefix NULL) is the end of the list, and the
CRASH_DEBUG-only crash entry is compiled out of a release build. -/
def command_handlers : List CommandsHandler :=
  [⟨"help", 4, none, .cred_guest, .help, "Show this help message."⟩,
   ⟨"stats", 5, none, .cred_super, .stats, "Show hub statistics."⟩,
   ⟨"version", 7, none, .cred_guest, .version, "Show hub version info."⟩,
   ⟨"uptime", 6, none, .cred_guest, .uptime, "Display hub uptime info."⟩,
   ⟨"kick", 4, some "n", .cred_operator, .kick, "Kick a user"⟩,
   ⟨"ban", 3, some "n", .cred_operator, .ban, "Ban a user"⟩,
   ⟨"unban", 5, some "n", .cred_operator, .unban, "Lift ban on a user"⟩,
   ⟨"reload", 6, none, .cred_admin, .reload, "Reload configuration files."⟩,
   ⟨"shutdown", 8, none, .cred_admin, .shutdown, "Shutdown hub."⟩,
   ⟨"myip", 4, none, .cred_guest, .myip, "Show your own IP."⟩,
   ⟨"getip", 5, some "n", .cred_operator, .getip, "Show IP address for a user"⟩]

/-- Embedding of send_message: construct and route one IMSG status
message to the invoking user (the adc escaping and framing are the
external collaborator's concern; the carried text is recorded). -/
def send_message (user : HubUser) (message : String) : List Effect :=
  [Effect.sendMsg user.nick message]

/-- Embedding of command_access_denied. -/
def command_access_denied (_hub : HubInfo) (user : HubUser) (cmd : HubCommand) :
    Int × List Effect :=
  (0, send_message user ("*** " ++ cmd.prefixStr ++ ": Access denied."))

/-- Truncation performed by snprintf(temp, 128, ...): at most 127
characters of the formatted text are kept (the 128th byte is the NUL
terminator).  The status texts are ASCII, so one Lean character stands
for one C byte. -/
def snprintf128 (s : String) : String :=
  String.mk (s.data.take 127)

/-- Embedding of command_not_found, including the 128-byte snprintf
buffer: a prefix long enough to overflow the format leaves a truncated
message on the wire. -/
def command_not_found (_hub : HubInfo) (user : HubUser) (cmd : HubCommand) :
    Int × List Effect :=
  (0, send_message user (snprintf128 ("*** " ++ cmd.prefixStr ++ ": Command not found")))

/-- Embedding of command_status_user_not_found. -/
def command_status_user_not_found (_hub : HubInfo) (user : HubUser) (cmd : HubCommand)
    (nick : String) : Int × List Effect :=
  (0, send_message user ("*** " ++ cmd.prefixStr ++ ": No user \"" ++ nick ++ "\""))

/-- Placeholder rendered by command_get_syntax for one argument-kind
character; characters outside the known kinds contribute nothing. -/
def argPlaceholder : Char → String
  | 'n' => "<nick>"
  | 'c' => "<cid>"
  | 'a' => "<addr>"
  | _ => ""

/-- Embedding of command_get_syntax: the placeholders of the args string
joined by single spaces (the loop prepends a space before every
character position after the first). -/
def command_get_syntax (args : Option String) : String :=
  match args with
  | none => ""
  | some s => String.intercalate " " (s.data.map argPlaceholder)

/-- Embedding of command_arg_mismatch.  The C tests the pointer returned
by command_get_syntax, which is a static buffer and never NULL, so the
branch printing "Use: !prefix args" is always the one taken. -/
def command_arg_mismatch (_hub : HubInfo) (user : HubUser) (cmd : HubCommand)
    (handler : CommandsHandler) : Int × List Effect :=
  (0, send_message user ("*** " ++ cmd.prefixStr ++ ": Use: !" ++ cmd.prefixStr ++ " "
    ++ command_get_syntax handler.argSpec))

/-- Embedding of command_status, the helper every handler reports
through. -/
def command_status (_hub : HubInfo) (user : HubUser) (cmd : HubCommand) (message : String) :
    Int × List Effect :=
  (0, send_message user ("*** " ++ cmd.prefixStr ++ ": " ++ message))

/-- Embedding of command_stats (counters read from the external stats
collaborator; the (int) casts are benign for realistic counter values
and are not modelled). -/
def command_stats (hub : HubInfo) (user : HubUser) (cmd : HubCommand) : Int × List Effect :=
  command_status hub user cmd
    (toString hub.usersCount ++ " users, peak: " ++ toString hub.usersCountPeak
      ++ ". Network (up/down): " ++ toString (hub.netTx / 1024) ++ "/"
      ++ toString (hub.netRx / 1024) ++ " KB/s, peak: " ++ toString (hub.netTxPeak / 1024)
      ++ "/" ++ toString (hub.netRxPeak / 1024) ++ " KB/s")

/-- Embedding of command_help: one line per registry entry whose required
credential is at most the invoking user's. -/
def command_help (hub : HubInfo) (user : HubUser) (cmd : HubCommand) : Int × List Effect :=
  command_status hub user cmd
    ("Available commands:\n" ++ String.join (command_handlers.filterMap (fun h =>
      if credRank h.cred ≤ credRank user.credentials then
        some ("!" ++ h.prefixStr ++ " - " ++ h.description ++ "\n")
      else none)))

/-- Value of a size_t cast to a 32-bit signed int, as the (int) casts in
command_uptime do; elapsed times below 2^31 are unaffected. -/
def intOfSizeT (n : Nat) : Int :=
  if n % 2 ^ 32 < 2 ^ 31 then (n % 2 ^ 32 : Int) else (n % 2 ^ 32 : Int) - 2 ^ 32

/-- uhub_itoa: plain decimal rendering, no padding. -/
def uhub_itoa (v : Int) : String :=
  toString v

/-- Hours-and-minutes tail written by command_uptime: each of the two
numbers is zero-padded to two digits by the explicit < 10 test. -/
def hhmmPart (h m : Nat) : String :=
  (if h < 10 then "0" else "") ++ uhub_itoa (intOfSizeT h) ++ ":"
    ++ (if m < 10 then "0" else "") ++ uhub_itoa (intOfSizeT m)

/-- Uptime string built by command_uptime from an elapsed-seconds value:
optional day segment (omitted when zero days, with plural s), then the
hours:minutes tail. -/
def formatUptime (D : Nat) : String :=
  let d := D / (24 * 3600)
  let D1 := D % (24 * 3600)
  let h := D1 / 3600
  let D2 := D1 % 3600
  let m := D2 / 60
  (if d ≠ 0 then uhub_itoa (intOfSizeT d) ++ " day" ++ (if d ≠ 1 then "s" else "") ++ ", "
   else "")
    ++ hhmmPart h m

/-- Embedding of command_uptime. -/
def command_uptime (hub : HubInfo) (user : HubUser) (cmd : HubCommand) : Int × List Effect :=
  command_status hub user cmd (formatUptime hub.uptimeSeconds)

/-- Embedding of command_kick.  The pointer test target == user is
structural equality here (the registry hands back the stored user).  On
an empty argument list the C list_get_first yields NULL and the code
would dereference it; the dispatcher's arity check keeps that branch
unreachable, and it is modelled as a no-effect result. -/
def command_kick (hub : HubInfo) (user : HubUser) (cmd : HubCommand) : Int × List Effect :=
  match cmd.args with
  | [] => (0, [])
  | nick :: _ =>
    match hub.lookup nick with
    | none => command_status_user_not_found hub user cmd nick
    | some target =>
      if target = user then
        command_status hub user cmd "Cannot kick yourself"
      else
        let st := command_status hub user cmd nick
        (st.1, Effect.disconnect target.nick :: st.2)

/-- Embedding of command_ban: disconnect the target, then record the
nick-level ban and the cid-level ban, then report. -/
def command_ban (hub : HubInfo) (user : HubUser) (cmd : HubCommand) : Int × List Effect :=
  match cmd.args with
  | [] => (0, [])
  | nick :: _ =>
    match hub.lookup nick with
    | none => command_status_user_not_found hub user cmd nick
    | some target =>
      if target = user then
        command_status hub user cmd "Cannot kick/ban yourself"
      else
        let st := command_status hub user cmd nick
        (st.1, Effect.disconnect target.nick :: Effect.banNick target.nick ::
          Effect.banCid target.cid :: st.2)

/-- Embedding of command_unban: intentionally inert. -/
def command_unban (hub : HubInfo) (user : HubUser) (cmd : HubCommand) : Int × List Effect :=
  command_status hub user cmd "Not implemented"

/-- Embedding of command_reload: set hub->status then report. -/
def command_reload (hub : HubInfo) (user : HubUser) (cmd : HubCommand) : Int × List Effect :=
  let st := command_status hub user cmd "Reloading configuration..."
  (st.1, Effect.setStatus HubStatusSignal.hub_status_restart :: st.2)

/-- Embedding of command_shutdown: set hub->status then report. -/
def command_shutdown (hub : HubInfo) (user : HubUser) (cmd : HubCommand) : Int × List Effect :=
  let st := command_status hub user cmd "Hub shutting down..."
  (st.1, Effect.setStatus HubStatusSignal.hub_status_shutdown :: st.2)

/-- Modelled from the spec: PRODUCT and VERSION are build-time constants
defined outside src/; only their being fixed strings matters here. -/
def PRODUCT : String := "uhub"

/-- Modelled from the spec: the version string constant, defined outside
src/. -/
def VERSION : String := "0.0.0"

/-- Embedding of command_version. -/
def command_version (hub : HubInfo) (user : HubUser) (cmd : HubCommand) : Int × List Effect :=
  command_status hub user cmd ("Powered by " ++ PRODUCT ++ "/" ++ VERSION)

/-- Embedding of command_myip. -/
def command_myip (hub : HubInfo) (user : HubUser) (cmd : HubCommand) : Int × List Effect :=
  command_status hub user cmd ("Your address is \"" ++ user.ipaddr ++ "\"")

/-- Embedding of command_getip.  Same empty-argument remark as for
command_kick. -/
def command_getip (hub : HubInfo) (user : HubUser) (cmd : HubCommand) : Int × List Effect :=
  match cmd.args with
  | [] => (0, [])
  | nick :: _ =>
    match hub.lookup nick with
    | none => command_status_user_not_found hub user cmd nick
    | some target =>
      command_status hub user cmd (nick ++ " has address \"" ++ target.ipaddr ++ "\"")

/-- Dispatch from a handler tag to the handler function, the call
handler->handler(hub, user, cmd). -/
def runHandler : CmdId → HubInfo → HubUser → HubCommand → Int × List Effect
  | .help => command_help
  | .stats => command_stats
  | .version => command_version
  | .uptime => command_uptime
  | .kick => command_kick
  | .ban => command_ban
  | .unban => command_unban
  | .reload => command_reload
  | .shutdown => command_shutdown
  | .myip => command_myip
  | .getip => command_getip

/-! ## Command dispatcher (command_dipatcher, sic, in src/core/commands.c) -/

/-- Registry match test from the dispatcher loop: the parsed prefix
length must equal the entry length, and strncmp over entry length must
report equality (strncmp(a, b, n) = 0 is equivalent to the n-prefixes of
the two C strings being equal). -/
def prefixMatches (p : String) (h : CommandsHandler) : Bool :=
  p.length == h.length && p.data.take h.length == h.prefixStr.data.take h.length

/-- Arity test from the dispatcher: no args string, or at least
strlen(args) supplied arguments. -/
def arityOk (h : CommandsHandler) (cmd : HubCommand) : Bool :=
  match h.argSpec with
  | none => true
  | some s => decide (s.length ≤ cmd.args.length)

/-- Action taken once a registry entry has matched: credential gate
first, then arity gate, then the handler. -/
def dispatchEntry (hub : HubInfo) (user : HubUser) (cmd : HubCommand) (h : CommandsHandler) :
    Int × List Effect :=
  if credRank h.cred ≤ credRank user.credentials then
    if arityOk h cmd then runHandler h.tag hub user cmd
    else command_arg_mismatch hub user cmd h
  else
    command_access_denied hub user cmd

/-- Linear scan of the registry in declaration order; a fall-through of
the whole table emits command_not_found and makes the dispatcher return
1. -/
def dispatchLoop (hub : HubInfo) (user : HubUser) (cmd : HubCommand) :
    List CommandsHandler → Int × List Effect
  | [] => (1, (command_not_found hub user cmd).2)
  | h :: rest =>
    if prefixMatches cmd.prefixStr h then dispatchEntry hub user cmd h
    else dispatchLoop hub user cmd rest

/-- Embedding of command_dipatcher: parse, then scan the table.  A parse
failure returns 1 with no message at all. -/
def command_dipatcher (hub : HubInfo) (user : HubUser) (message : String) : Int × List Effect :=
  match command_create message with
  | none => (1, [])
  | some cmd => dispatchLoop hub user cmd command_handlers

/-- Sample operator-level user, for concrete instantiations. -/
def oscarU : HubUser :=
  ⟨"oscar", "OSCARCID", UserCredentials.cred_operator, "10.0.0.2"⟩

/-- Sample guest-level user, for concrete instantiations. -/
def aliceU : HubUser :=
  ⟨"alice", "ALICECID", UserCredentials.cred_guest, "10.0.0.1"⟩

/-- Sample hub whose registry resolves the two sample users. -/
def sampleHub : HubInfo :=
  ⟨fun n => if n = "oscar" then some oscarU else if n = "alice" then some aliceU else none,
   3, 5, 2048, 4096, 8192, 16384, 90061⟩

lemma sendqRest_zero (qs : List (List Nat)) : sendqRest qs 0 = qs.flatten := by
  cases qs <;> simp [sendqRest]

lemma drop_take_sub (m : List Nat) (off : Nat) :
    (m.drop off).take (m.length - off) = m.drop off := by
  rw [← List.length_drop off m, List.take_length]

/-- Core facts about one pass of the send loop, for an arbitrary write
function: the bytes handed to the writer followed by the bytes still
owed reconstruct exactly the bytes owed beforehand (nothing duplicated,
dropped or reordered); the size bookkeeping of hub_sendq_remove matches
the messages dropped from the queue; the remaining queue is a suffix of
the original; and for a writer that never over-reports, bytes_sent is
the number of bytes handed over. -/
lemma sendqSendGo_spec (w : List Nat → Int) (qs : List (List Nat)) :
    ∀ (off : Nat) qs' off' removed sent wire,
      sendqSendGo w qs off = (qs', off', removed, sent, wire) →
      wire ++ sendqRest qs' off' = sendqRest qs off ∧
      removed + sumLens qs' = sumLens qs ∧
      qs' <:+ qs ∧
      (BoundedWriter w → sent = wire.length) := by
  induction qs with
  | nil =>
    intro off qs' off' removed sent wire h
    simp only [sendqSendGo, Prod.mk.injEq] at h
    obtain ⟨rfl, rfl, rfl, rfl, rfl⟩ := h
    exact ⟨rfl, Nat.zero_add _, List.suffix_refl _, fun _ => rfl⟩
  | cons m rest ih =>
    intro off qs' off' removed sent wire h
    simp only [sendqSendGo, drop_take_sub] at h
    by_cases h0 : w (m.drop off) ≤ 0
    · rw [if_pos h0] at h
      simp only [Prod.mk.injEq] at h
      obtain ⟨rfl, rfl, rfl, rfl, rfl⟩ := h
      exact ⟨rfl, Nat.zero_add _, List.suffix_refl _, fun _ => rfl⟩
    · rw [if_neg h0] at h
      by_cases h1 : off + (w (m.drop off)).toNat < m.length
      · rw [if_pos h1] at h
        simp only [Prod.mk.injEq] at h
        obtain ⟨rfl, rfl, rfl, rfl, rfl⟩ := h
        refine ⟨?_, Nat.zero_add _, List.suffix_refl _, ?_⟩
        · simp only [sendqRest]
          rw [← List.drop_drop _ off m, ← List.append_assoc, List.take_append_drop]
        · intro hb
          rw [List.length_take]
          have := hb (m.drop off)
          have hd := List.length_drop off m
          omega
      · rw [if_neg h1] at h
        rcases hrec : sendqSendGo w rest 0 with ⟨qs0, off2, removed0, sent0, wire0⟩
        rw [hrec] at h
        simp only [Prod.mk.injEq] at h
        obtain ⟨rfl, rfl, rfl, rfl, rfl⟩ := h
        obtain ⟨hcons, hrem, hsuf, hsent⟩ := ih 0 qs0 off2 removed0 sent0 wire0 hrec
        rw [sendqRest_zero] at hcons
        have hlen : (m.drop off).length ≤ (w (m.drop off)).toNat := by
          rw [List.length_drop]; omega
        have htake : (m.drop off).take (w (m.drop off)).toNat = m.drop off :=
          List.take_of_length_le hlen
        refine ⟨?_, ?_, hsuf.trans (List.suffix_cons m rest), ?_⟩
        · rw [htake, List.append_assoc, hcons]
          simp [sendqRest]
        · simp only [sumLens, List.map_cons, List.sum_cons]
          simp only [sumLens] at hrem
          omega
        · intro hb
          have h0' := hsent hb
          have hb' := hb (m.drop off)
          rw [List.length_append, List.length_take]
          omega

/-- One pass of the send loop keeps the offset within the head message,
for every write function. -/
lemma sendqSendGo_wfOff (w : List Nat → Int) (qs : List (List Nat)) :
    ∀ (off : Nat) qs' off' removed sent wire,
      sendqSendGo w qs off = (qs', off', removed, sent, wire) →
      sendqWfOff qs off → sendqWfOff qs' off' := by
  induction qs with
  | nil =>
    intro off qs' off' removed sent wire h hwf
    simp only [sendqSendGo, Prod.mk.injEq] at h
    obtain ⟨rfl, rfl, rfl, rfl, rfl⟩ := h
    exact hwf
  | cons m rest ih =>
    intro off qs' off' removed sent wire h hwf
    simp only [sendqSendGo, drop_take_sub] at h
    by_cases h0 : w (m.drop off) ≤ 0
    · rw [if_pos h0] at h
      simp only [Prod.mk.injEq] at h
      obtain ⟨rfl, rfl, rfl, rfl, rfl⟩ := h
      exact hwf
    · rw [if_neg h0] at h
      by_cases h1 : off + (w (m.drop off)).toNat < m.length
      · rw [if_pos h1] at h
        simp only [Prod.mk.injEq] at h
        obtain ⟨rfl, rfl, rfl, rfl, rfl⟩ := h
        simp only [sendqWfOff]
        omega
      · rw [if_neg h1] at h
        rcases hrec : sendqSendGo w rest 0 with ⟨qs0, off2, removed0, sent0, wire0⟩
        rw [hrec] at h
        simp only [Prod.mk.injEq] at h
        obtain ⟨rfl, rfl, rfl, rfl, rfl⟩ := h
        refine ih 0 qs0 off2 removed0 sent0 wire0 hrec ?_
        cases rest with
        | nil => rfl
        | cons m' r' => exact Nat.zero_le _

/-- On a queue of nonempty messages, one pass of the send loop also keeps
the offset strictly below the head length, for every write function. -/
lemma sendqSendGo_wfOffS (w : List Nat → Int) (qs : List (List Nat)) :
    ∀ (off : Nat) qs' off' removed sent wire,
      sendqSendGo w qs off = (qs', off', removed, sent, wire) →
      (∀ m ∈ qs, m ≠ []) → sendqWfOffS qs off → sendqWfOffS qs' off' := by
  induction qs with
  | nil =>
    intro off qs' off' removed sent wire h hne hwf
    simp only [sendqSendGo, Prod.mk.injEq] at h
    obtain ⟨rfl, rfl, rfl, rfl, rfl⟩ := h
    exact hwf
  | cons m rest ih =>
    intro off qs' off' removed sent wire h hne hwf
    simp only [sendqSendGo, drop_take_sub] at h
    by_cases h0 : w (m.drop off) ≤ 0
    · rw [if_pos h0] at h
      simp only [Prod.mk.injEq] at h
      obtain ⟨rfl, rfl, rfl, rfl, rfl⟩ := h
      exact hwf
    · rw [if_neg h0] at h
      by_cases h1 : off + (w (m.drop off)).toNat < m.length
      · rw [if_pos h1] at h
        simp only [Prod.mk.injEq] at h
        obtain ⟨rfl, rfl, rfl, rfl, rfl⟩ := h
        exact h1
      · rw [if_neg h1] at h
        rcases hrec : sendqSendGo w rest 0 with ⟨qs0, off2, removed0, sent0, wire0⟩
        rw [hrec] at h
        simp only [Prod.mk.injEq] at h
        obtain ⟨rfl, rfl, rfl, rfl, rfl⟩ := h
        refine ih 0 qs0 off2 removed0 sent0 wire0 hrec
          (fun x hx => hne x (List.mem_cons_of_mem m hx)) ?_
        cases rest with
        | nil => rfl
        | cons m' r' =>
          have := hne m' (by simp)
          simpa [sendqWfOffS, List.length_pos] using this

/-- With a write function that accepts everything offered, a single send
pass starting at offset 0 on nonempty messages empties the queue and
hands over exactly the concatenation of the queued messages. -/
lemma sendqSendGo_acceptAll (qs : List (List Nat)) (hne : ∀ m ∈ qs, m ≠ []) :
    sendqSendGo acceptAll qs 0 = ([], 0, sumLens qs, sumLens qs, qs.flatten) := by
  induction qs with
  | nil => simp [sendqSendGo, sumLens]
  | cons m rest ih =>
    have hm : m ≠ [] := hne m (by simp)
    have hml : 0 < m.length := List.length_pos.mpr hm
    have hr : acceptAll m = (m.length : Int) := rfl
    have hr2 : (acceptAll m).toNat = m.length := by simp [acceptAll]
    simp only [sendqSendGo, List.drop_zero, Nat.sub_zero, List.take_length]
    rw [if_neg (by rw [hr]; omega)]
    rw [if_neg (by rw [hr2]; omega)]
    rw [ih (fun x hx => hne x (List.mem_cons_of_mem m hx))]
    simp only [hr2, List.take_length, sumLens, List.map_cons, List.sum_cons, List.flatten_cons,
      Prod.mk.injEq, true_and, and_true]
    omega

/-- With the one-byte write function, a send pass whose head message has
unsent bytes hands over at least one byte. -/
lemma sendqSendGo_acceptOne_ne_nil (m : List Nat) (rest : List (List Nat)) (off : Nat)
    (hoff : off < m.length) :
    ∀ qs' off' removed sent wire,
      sendqSendGo acceptOne (m :: rest) off = (qs', off', removed, sent, wire) →
      wire ≠ [] := by
  intro qs' off' removed sent wire h
  have hdl : (m.drop off).length = m.length - off := List.length_drop off m
  have hdne : m.drop off ≠ [] := by
    intro hc
    rw [hc] at hdl
    simp at hdl
    omega
  have hret : acceptOne (m.drop off) = 1 := by
    simp only [acceptOne, List.length_eq_zero]
    rw [if_neg hdne]
  simp only [sendqSendGo, drop_take_sub, hret] at h
  rw [if_neg (by omega)] at h
  simp only [Int.toNat_one] at h
  by_cases h1 : off + 1 < m.length
  · rw [if_pos h1] at h
    simp only [Prod.mk.injEq] at h
    obtain ⟨rfl, rfl, rfl, rfl, rfl⟩ := h
    simp [List.take_eq_nil_iff, hdne]
  · rw [if_neg h1] at h
    rcases hrec : sendqSendGo acceptOne rest 0 with ⟨qs0, off2, removed0, sent0, wire0⟩
    rw [hrec] at h
    simp only [Prod.mk.injEq] at h
    obtain ⟨rfl, rfl, rfl, rfl, rfl⟩ := h
    simp [List.take_eq_nil_iff, hdne]

lemma foldl_hub_sendq_add (msgs : List (List Nat)) :
    ∀ q : HubSendq, msgs.foldl hub_sendq_add q =
      ⟨q.queue ++ msgs, q.size + sumLens msgs, q.offset⟩ := by
  induction msgs with
  | nil =>
    intro q
    cases q
    simp [sumLens]
  | cons m ms ih =>
    intro q
    rw [List.foldl_cons, ih]
    simp only [hub_sendq_add, sumLens, List.map_cons, List.sum_cons, HubSendq.mk.injEq,
      List.append_assoc, List.singleton_append]
    exact ⟨trivial, by omega, trivial⟩

lemma enqueueAll_eq (msgs : List (List Nat)) :
    enqueueAll msgs = ⟨msgs, sumLens msgs, 0⟩ := by
  rw [enqueueAll, foldl_hub_sendq_add]
  simp

lemma sendqRest_length (qs : List (List Nat)) (off : Nat) (h : sendqWfOff qs off) :
    (sendqRest qs off).length = sumLens qs - off := by
  cases qs with
  | nil =>
    have : off = 0 := h
    simp [sendqRest, sumLens, this]
  | cons m rest =>
    have hoff : off ≤ m.length := h
    simp only [sendqRest, sumLens, List.length_append, List.length_drop, List.length_flatten,
      List.map_cons, List.sum_cons]
    omega

/-- Across any number of drain calls with any write function, the bytes
handed to the write function form a prefix of the bytes owed at the
start: nothing is duplicated, dropped out of turn, or reordered. -/
lemma drainN_wire_front (w : List Nat → Int) :
    ∀ (n : Nat) (q : HubSendq),
      ∃ t, (drainN w n q).2 ++ t = sendqRest q.queue q.offset := by
  intro n
  induction n with
  | zero =>
    intro q
    exact ⟨sendqRest q.queue q.offset, by simp [drainN]⟩
  | succ n ih =>
    intro q
    rcases hs : sendqSendGo w q.queue q.offset with ⟨qs', off', removed, sent, wire⟩
    obtain ⟨hcons, -, -, -⟩ := sendqSendGo_spec w q.queue q.offset qs' off' removed sent wire hs
    simp only [drainN, hub_sendq_send, hs]
    rcases hd : drainN w n ⟨qs', q.size - removed, off'⟩ with ⟨q2, wire2⟩
    obtain ⟨t, ht⟩ := ih ⟨qs', q.size - removed, off'⟩
    rw [hd] at ht
    refine ⟨t, ?_⟩
    simp only [List.append_assoc]
    rw [ht]
    exact hcons

/-- With the one-byte write function, draining at least as many times as
there are owed bytes hands over every owed byte and empties the queue
(each drain call makes strictly positive progress). -/
lemma drainN_acceptOne_complete :
    ∀ (n : Nat) (qs : List (List Nat)) (off sz : Nat),
      (∀ m ∈ qs, m ≠ []) → sendqWfOffS qs off → (sendqRest qs off).length ≤ n →
      (drainN acceptOne n ⟨qs, sz, off⟩).2 = sendqRest qs off ∧
      (drainN acceptOne n ⟨qs, sz, off⟩).1.queue = [] := by
  intro n
  induction n with
  | zero =>
    intro qs off sz hne hwf hlen
    cases qs with
    | nil => simp [drainN, sendqRest]
    | cons m rest =>
      exfalso
      have hoff : off < m.length := hwf
      simp only [sendqRest, List.length_append, List.length_drop] at hlen
      omega
  | succ n ih =>
    intro qs off sz hne hwf hlen
    cases qs with
    | nil =>
      have hoff : off = 0 := hwf
      subst hoff
      simp only [drainN, hub_sendq_send, sendqSendGo]
      rcases hd : drainN acceptOne n ⟨[], sz - 0, 0⟩ with ⟨q2, wire2⟩
      obtain ⟨ih1, ih2⟩ := ih [] 0 (sz - 0) hne hwf (by simp [sendqRest])
      rw [hd] at ih1 ih2
      simp only [sendqRest] at ih1 ⊢
      exact ⟨by simp [ih1], ih2⟩
    | cons m rest =>
      have hoff : off < m.length := hwf
      rcases hs : sendqSendGo acceptOne (m :: rest) off with ⟨qs', off', removed, sent, wire⟩
      obtain ⟨hcons, -, hsuf, -⟩ :=
        sendqSendGo_spec acceptOne (m :: rest) off qs' off' removed sent wire hs
      have hwf' := sendqSendGo_wfOffS acceptOne (m :: rest) off qs' off' removed sent wire hs hne hwf
      have hne' : ∀ x ∈ qs', x ≠ [] := fun x hx => hne x (hsuf.subset hx)
      have hw : wire ≠ [] := sendqSendGo_acceptOne_ne_nil m rest off hoff qs' off' removed sent wire hs
      have hwl : 1 ≤ wire.length := List.length_pos.mpr hw
      have hlen' : (sendqRest qs' off').length ≤ n := by
        have hcl := congrArg List.length hcons
        rw [List.length_append] at hcl
        omega
      obtain ⟨ih1, ih2⟩ := ih qs' off' (sz - removed) hne' hwf' hlen'
      simp only [drainN, hub_sendq_send, hs]
      rcases hd : drainN acceptOne n ⟨qs', sz - removed, off'⟩ with ⟨q2, wire2⟩
      rw [hd] at ih1 ih2
      exact ⟨by rw [ih1]; exact hcons, ih2⟩

lemma boundedWriter_acceptAll : BoundedWriter acceptAll := by
  intro s
  simp [acceptAll]

lemma boundedWriter_acceptOne : BoundedWriter acceptOne := by
  intro s
  simp only [acceptOne]
  by_cases h : s.length = 0
  · simp [h]
  · rw [if_neg h]
    simp
    omega

/-! ## Claims about the receive buffer and the handlers -/

/-- C7: replace(A) then replace(B) then take() returns exactly B, never A
and never A ++ B; replacing with the empty sequence clears the buffer,
so a subsequent take returns nothing. -/
theorem C7_recvq_replace_take (q : HubRecvq) (A B : List Nat) :
    (hub_recvq_get (hub_recvq_set (hub_recvq_set q A).1 B).1).2 = B ∧
    (hub_recvq_set (hub_recvq_set q A).1 []).1 = ⟨[]⟩ ∧
    (hub_recvq_get (hub_recvq_set (hub_recvq_set q A).1 []).1).2 = [] := by
  rcases B with _ | ⟨b, bs⟩ <;> simp [hub_recvq_set, hub_recvq_get]

/-- C5: a kick or ban whose nickname argument is the invoking actor's own
nick (and resolves to the actor in the registry) performs no disconnect
and no ACL mutation; the single effect is the self-target rejection
status message. -/
theorem C5_self_target_rejected (hub : HubInfo) (user : HubUser) (cmd : HubCommand)
    (rest : List String) (hargs : cmd.args = user.nick :: rest)
    (hlook : hub.lookup user.nick = some user) :
    command_kick hub user cmd =
      (0, [Effect.sendMsg user.nick ("*** " ++ cmd.prefixStr ++ ": " ++ "Cannot kick yourself")]) ∧
    command_ban hub user cmd =
      (0, [Effect.sendMsg user.nick
            ("*** " ++ cmd.prefixStr ++ ": " ++ "Cannot kick/ban yourself")]) := by
  constructor <;>
    simp [command_kick, command_ban, hargs, hlook, command_status, send_message]

theorem C5_self_target_witness :
    command_kick sampleHub oscarU ⟨"kick", ["oscar"]⟩ =
      (0, [Effect.sendMsg "oscar" "*** kick: Cannot kick yourself"]) ∧
    command_ban sampleHub oscarU ⟨"ban", ["oscar"]⟩ =
      (0, [Effect.sendMsg "oscar" "*** ban: Cannot kick/ban yourself"]) := by
  have h1 := C5_self_target_rejected sampleHub oscarU ⟨"kick", ["oscar"]⟩ [] (by decide)
    (by decide)
  have h2 := C5_self_target_rejected sampleHub oscarU ⟨"ban", ["oscar"]⟩ [] (by decide)
    (by decide)
  exact ⟨h1.1.trans (by decide), h2.2.trans (by decide)⟩

/-- C6: a ban whose nickname resolves to a live target other than the
invoker disconnects the target and then records both the nick-level ban
and the cid-level ban in the ACL store, then reports. -/
theorem C6_ban_records_both (hub : HubInfo) (user target : HubUser) (cmd : HubCommand)
    (nick : String) (rest : List String) (hargs : cmd.args = nick :: rest)
    (hlook : hub.lookup nick = some target) (hne : target ≠ user) :
    command_ban hub user cmd =
      (0, [Effect.disconnect target.nick, Effect.banNick target.nick,
           Effect.banCid target.cid,
           Effect.sendMsg user.nick ("*** " ++ cmd.prefixStr ++ ": " ++ nick)]) := by
  simp [command_ban, hargs, hlook, if_neg hne, command_status, send_message]

theorem C6_ban_witness :
    command_ban sampleHub oscarU ⟨"ban", ["alice"]⟩ =
      (0, [Effect.disconnect "alice", Effect.banNick "alice", Effect.banCid "ALICECID",
           Effect.sendMsg "oscar" "*** ban: alice"]) := by
  have h := C6_ban_records_both sampleHub oscarU aliceU ⟨"ban", ["alice"]⟩ "alice" []
    (by decide) (by decide) (by decide)
  exact h.trans (by decide)

/-! ## Dispatcher lemmas -/

lemma runHandler_fst (tag : CmdId) (hub : HubInfo) (user : HubUser) (cmd : HubCommand) :
    (runHandler tag hub user cmd).1 = 0 := by
  cases tag <;>
    simp only [runHandler, command_help, command_stats, command_version, command_uptime,
      command_kick, command_ban, command_unban, command_reload, command_shutdown,
      command_myip, command_getip, command_status, command_status_user_not_found,
      send_message] <;>
    (repeat' split) <;> rfl

lemma dispatchEntry_fst (hub : HubInfo) (user : HubUser) (cmd : HubCommand)
    (h : CommandsHandler) : (dispatchEntry hub user cmd h).1 = 0 := by
  simp only [dispatchEntry]
  split
  · split
    · exact runHandler_fst h.tag hub user cmd
    · rfl
  · rfl

lemma dispatchLoop_eq_find (hub : HubInfo) (user : HubUser) (cmd : HubCommand)
    (hs : List CommandsHandler) :
    dispatchLoop hub user cmd hs =
      match hs.find? (fun h => prefixMatches cmd.prefixStr h) with
      | none => (1, (command_not_found hub user cmd).2)
      | some h => dispatchEntry hub user cmd h := by
  induction hs with
  | nil => rfl
  | cons h rest ih =>
    cases hp : prefixMatches cmd.prefixStr h <;>
      simp [dispatchLoop, List.find?_cons, hp, ih]

lemma dispatchLoop_none (hub : HubInfo) (user : HubUser) (cmd : HubCommand)
    (hs : List CommandsHandler) (hnone : ∀ h ∈ hs, ¬ prefixMatches cmd.prefixStr h) :
    dispatchLoop hub user cmd hs = (1, (command_not_found hub user cmd).2) := by
  induction hs with
  | nil => rfl
  | cons h rest ih =>
    simp only [dispatchLoop]
    rw [if_neg (hnone h (by simp))]
    exact ih (fun x hx => hnone x (List.mem_cons_of_mem h hx))

lemma dispatchLoop_fst (hub : HubInfo) (user : HubUser) (cmd : HubCommand)
    (hs : List CommandsHandler) :
    (dispatchLoop hub user cmd hs).1 =
      if hs.any (fun h => prefixMatches cmd.prefixStr h) then 0 else 1 := by
  induction hs with
  | nil => rfl
  | cons h rest ih =>
    cases hp : prefixMatches cmd.prefixStr h
    · simp [dispatchLoop, hp, ih]
    · simp [dispatchLoop, hp, dispatchEntry_fst]

lemma prefixMatches_eq (p : String) (h : CommandsHandler)
    (hlen : h.prefixStr.length = h.length) :
    prefixMatches p h = true ↔ p = h.prefixStr := by
  simp only [prefixMatches, Bool.and_eq_true, beq_iff_eq]
  constructor
  · rintro ⟨h1, h2⟩
    have hp : p.data.take h.length = p.data :=
      List.take_of_length_le (le_of_eq h1)
    have hq : h.prefixStr.data.take h.length = h.prefixStr.data :=
      List.take_of_length_le (le_of_eq hlen)
    exact String.ext (by rw [← hp, ← hq, h2])
  · rintro rfl
    exact ⟨hlen, rfl⟩

lemma find_of_mem_matches (p : String) (h : CommandsHandler)
    (hmem : h ∈ command_handlers) (hm : prefixMatches p h = true) :
    command_handlers.find? (fun e => prefixMatches p e) = some h := by
  simp only [command_handlers, List.mem_cons, List.not_mem_nil, or_false] at hmem
  rcases hmem with rfl | rfl | rfl | rfl | rfl | rfl | rfl | rfl | rfl | rfl | rfl <;>
    (rw [(prefixMatches_eq p _ (by decide)).mp hm]; decide)

/-! ## Claims about the dispatcher -/

/-- C1: an actor whose credential rank is strictly below a matching
registry entry's requirement is answered with exactly the access-denied
status naming the prefix, for every supplied argument count; the
credential gate fires before the arity gate, so the answer never
contains the argument placeholders. -/
theorem C1_access_denied_before_arity (hub : HubInfo) (user : HubUser) (msg : String)
    (cmd : HubCommand) (h : CommandsHandler) (hmem : h ∈ command_handlers)
    (hparse : command_create msg = some cmd)
    (hmatch : prefixMatches cmd.prefixStr h = true)
    (hcred : credRank user.credentials < credRank h.cred) :
    command_dipatcher hub user msg =
      (0, [Effect.sendMsg user.nick ("*** " ++ cmd.prefixStr ++ ": Access denied.")]) := by
  have hfind := find_of_mem_matches cmd.prefixStr h hmem hmatch
  simp only [command_dipatcher, hparse]
  rw [dispatchLoop_eq_find, hfind]
  simp only [dispatchEntry]
  rw [if_neg (by omega)]
  rfl

theorem C1_access_denied_witness :
    command_dipatcher sampleHub aliceU "!stats" =
      (0, [Effect.sendMsg "alice" "*** stats: Access denied."]) := by
  have h := C1_access_denied_before_arity sampleHub aliceU "!stats" ⟨"stats", []⟩
    ⟨"stats", 5, none, UserCredentials.cred_super, CmdId.stats, "Show hub statistics."⟩
    (by decide) (by decide) (by decide) (by decide)
  exact h.trans (by decide)

set_option maxRecDepth 4096 in
/-- C8 fails on the code for very long attempted prefixes: the
command-not-found status is formatted into a 128-byte snprintf buffer,
so a 110-character unmatched prefix yields a message truncated to 127
characters — neither the full "*** <prefix>: Command not found" text nor
one containing its tail. -/
theorem C8_counterexample_truncation :
    command_dipatcher sampleHub aliceU ("!" ++ String.mk (List.replicate 110 'a')) ≠
      (1, [Effect.sendMsg "alice"
            ("*** " ++ String.mk (List.replicate 110 'a') ++ ": Command not found")]) ∧
    command_dipatcher sampleHub aliceU ("!" ++ String.mk (List.replicate 110 'a')) =
      (1, [Effect.sendMsg "alice"
            (snprintf128 ("*** " ++ String.mk (List.replicate 110 'a')
              ++ ": Command not found"))]) ∧
    ("*** " ++ String.mk (List.replicate 110 'a') ++ ": Command not found").length = 133 ∧
    (snprintf128 ("*** " ++ String.mk (List.replicate 110 'a')
      ++ ": Command not found")).length = 127 := by
  decide

/-- C8 amended: a line that fails to parse produces no message at all
(silent result 1); a parsed prefix matching no registry entry produces a
status holding the first 127 characters of
"*** <prefix>: Command not found" (the snprintf buffer bound), which is
the full text naming the exact attempted prefix whenever the prefix is
at most 104 characters long. -/
theorem C8_silent_parse_failure (hub : HubInfo) (user : HubUser) (msg : String) :
    (command_create msg = none → command_dipatcher hub user msg = (1, [])) ∧
    (∀ cmd, command_create msg = some cmd →
      (∀ h ∈ command_handlers, ¬ prefixMatches cmd.prefixStr h) →
      command_dipatcher hub user msg =
        (1, [Effect.sendMsg user.nick
              (snprintf128 ("*** " ++ cmd.prefixStr ++ ": Command not found"))]) ∧
      (cmd.prefixStr.length ≤ 104 →
        snprintf128 ("*** " ++ cmd.prefixStr ++ ": Command not found") =
          "*** " ++ cmd.prefixStr ++ ": Command not found")) := by
  constructor
  · intro hn
    simp [command_dipatcher, hn]
  · intro cmd hs hnone
    constructor
    · simp only [command_dipatcher, hs]
      rw [dispatchLoop_none hub user cmd _ hnone]
      rfl
    · intro hlen
      have h4 : ("*** " : String).data.length = 4 := rfl
      have h19 : (": Command not found" : String).data.length = 19 := rfl
      have hp : cmd.prefixStr.data.length = cmd.prefixStr.length := rfl
      have hle : ("*** " ++ cmd.prefixStr ++ ": Command not found").data.length ≤ 127 := by
        rw [String.data_append, String.data_append, List.length_append, List.length_append]
        omega
      exact String.ext (List.take_of_length_le hle)

theorem C8_silent_parse_witness :
    command_dipatcher sampleHub aliceU "!" = (1, []) ∧
    command_dipatcher sampleHub aliceU "!frobnicate" =
      (1, [Effect.sendMsg "alice" "*** frobnicate: Command not found"]) := by
  refine ⟨(C8_silent_parse_failure sampleHub aliceU "!").1 (by decide), ?_⟩
  have h := (C8_silent_parse_failure sampleHub aliceU "!frobnicate").2 ⟨"frobnicate", []⟩
    (by decide) (by decide)
  have h2 := h.2 (by decide)
  exact h.1.trans (by rw [h2]; decide)

/-- C10: the dispatcher returns 1 exactly when parsing fails or no
registry entry matches the parsed prefix, and 0 exactly when some entry
matches, whether the handler ran, access was denied, or the arity check
failed: every built-in handler and every error helper returns 0. -/
theorem C10_return_codes (hub : HubInfo) (user : HubUser) (msg : String) :
    ((command_dipatcher hub user msg).1 = 1 ↔
      (command_create msg = none ∨
        ∃ cmd, command_create msg = some cmd ∧
          ∀ h ∈ command_handlers, ¬ prefixMatches cmd.prefixStr h)) ∧
    ((command_dipatcher hub user msg).1 = 0 ↔
      (∃ cmd h, command_create msg = some cmd ∧ h ∈ command_handlers ∧
        prefixMatches cmd.prefixStr h = true)) := by
  cases hc : command_create msg with
  | none =>
    simp [command_dipatcher, hc]
  | some cmd =>
    simp only [command_dipatcher, hc]
    rw [dispatchLoop_fst]
    by_cases ha : command_handlers.any (fun h => prefixMatches cmd.prefixStr h)
    · obtain ⟨h0, hmem0, hm0⟩ := List.any_eq_true.mp ha
      rw [if_pos ha]
      constructor
      · constructor
        · intro h01
          exact absurd h01 (by decide)
        · rintro (hno | ⟨cmd', hceq, hall⟩)
          · exact absurd hno (by simp)
          · obtain rfl := Option.some.inj hceq
            exact absurd hm0 (hall h0 hmem0)
      · exact ⟨fun _ => ⟨cmd, h0, rfl, hmem0, hm0⟩, fun _ => rfl⟩
    · have hall : ∀ h ∈ command_handlers, ¬ prefixMatches cmd.prefixStr h := by
        intro h hmem hph
        exact ha (List.any_eq_true.mpr ⟨h, hmem, hph⟩)
      rw [if_neg ha]
      constructor
      · exact ⟨fun _ => Or.inr ⟨cmd, rfl, hall⟩, fun _ => rfl⟩
      · constructor
        · intro h10
          exact absurd h10 (by decide)
        · rintro ⟨cmd', h', hceq, hmem', hm'⟩
          obtain rfl := Option.some.inj hceq
          exact absurd hm' (hall h' hmem')

theorem C10_return_codes_witness :
    (command_dipatcher sampleHub aliceU "!help").1 = 0 ∧
    (command_dipatcher sampleHub aliceU "!nope").1 = 1 := by
  constructor
  · exact (C10_return_codes sampleHub aliceU "!help").2.mpr
      ⟨⟨"help", []⟩, ⟨"help", 4, none, UserCredentials.cred_guest, CmdId.help,
        "Show this help message."⟩, by decide, by decide, by decide⟩
  · exact (C10_return_codes sampleHub aliceU "!nope").1.mpr
      (Or.inr ⟨⟨"nope", []⟩, by decide, by decide⟩)

/-! ## Claims about the parser -/

/-- C2 fails on the code: command_create accepts a first token of length
at least two regardless of its first character; the line "ab cd" parses
to prefix "b" although 'a' is not the command marker. -/
theorem C2_counterexample_marker_unchecked :
    command_create "ab cd" = some ⟨"b", ["cd"]⟩ ∧
    ("ab" : String).data.head? = some 'a' ∧ 'a' ≠ '!' := by
  decide

/-- C2 amended: parsing fails exactly when there is no token or the
first token is shorter than two characters — the marker character is
never compared; on success the prefix is the first token with its first
character (whatever it is) removed, the arguments are the remaining
tokens, and the prefix is never empty. -/
theorem C2_parse_shape (msg : String) :
    (command_create msg = none ↔
      (splitWs msg = [] ∨ ∃ t ts, splitWs msg = t :: ts ∧ t.length < 2)) ∧
    (∀ cmd, command_create msg = some cmd →
      ∃ t ts, splitWs msg = t :: ts ∧ 2 ≤ t.length ∧
        cmd.prefixStr.data = t.data.drop 1 ∧ cmd.args = ts ∧ cmd.prefixStr ≠ "") := by
  cases hs : splitWs msg with
  | nil =>
    have hcc : command_create msg = none := by simp [command_create, hs]
    refine ⟨?_, ?_⟩
    · rw [hcc]
      exact ⟨fun _ => Or.inl rfl, fun _ => rfl⟩
    · intro cmd hc
      rw [hcc] at hc
      exact Option.noConfusion hc
  | cons t ts =>
    have hlen : t.length = t.data.length := rfl
    cases ht : t.data with
    | nil =>
      have hcc : command_create msg = none := by simp [command_create, hs, ht]
      have hlt : t.length < 2 := by rw [hlen, ht, List.length_nil]; omega
      refine ⟨?_, ?_⟩
      · rw [hcc]
        exact ⟨fun _ => Or.inr ⟨t, ts, rfl, hlt⟩, fun _ => rfl⟩
      · intro cmd hc
        rw [hcc] at hc
        exact Option.noConfusion hc
    | cons c cs =>
      cases cs with
      | nil =>
        have hcc : command_create msg = none := by simp [command_create, hs, ht]
        have hlt : t.length < 2 := by
          rw [hlen, ht, List.length_cons, List.length_nil]
          omega
        refine ⟨?_, ?_⟩
        · rw [hcc]
          exact ⟨fun _ => Or.inr ⟨t, ts, rfl, hlt⟩, fun _ => rfl⟩
        · intro cmd hc
          rw [hcc] at hc
          exact Option.noConfusion hc
      | cons c2 cs2 =>
        have hcc : command_create msg = some ⟨String.mk (c2 :: cs2), ts⟩ := by
          simp [command_create, hs, ht]
        have h2 : 2 ≤ t.length := by
          rw [hlen, ht, List.length_cons, List.length_cons]
          omega
        refine ⟨?_, ?_⟩
        · rw [hcc]
          constructor
          · intro hc
            exact Option.noConfusion hc
          · rintro (hnil | ⟨t2, ts2, heq, hlt⟩)
            · exact List.noConfusion hnil
            · injection heq with heq1 heq2
              rw [← heq1] at hlt
              omega
        · intro cmd hc
          rw [hcc] at hc
          obtain rfl := Option.some.inj hc
          refine ⟨t, ts, rfl, h2, by simp [ht], rfl, ?_⟩
          intro hemp
          have hd := congrArg String.data hemp
          simp at hd

theorem C2_parse_shape_witness :
    command_create "!go now" = some ⟨"go", ["now"]⟩ ∧
    (⟨"go", ["now"]⟩ : HubCommand).prefixStr ≠ "" := by
  obtain ⟨t, ts, hsp, hl, hpre, hargs, hne⟩ :=
    (C2_parse_shape "!go now").2 ⟨"go", ["now"]⟩ (by decide)
  exact ⟨by decide, hne⟩

/-! ## Claims about the uptime format -/

/-- C9 fails on the code at its own example: 90061 seconds is 1 day,
1 hour, 1 minute, 1 second, so command_uptime renders "1 day, 01:01",
whose hours:minutes tail is not "00:01". -/
theorem C9_counterexample_90061 :
    formatUptime 90061 = "1 day, 01:01" ∧
    (("00:01" : String).data.isSuffixOf (formatUptime 90061).data) = false := by
  decide

/-- C9 amended: below one day the output is exactly the two-digit
zero-padded "HH:MM" with no day segment; in the one-day band the day
segment "1 day, " is prepended; 90061 seconds renders "1 day, "
followed by "01:01". -/
theorem C9_uptime_format :
    formatUptime 90061 = "1 day, 01:01" ∧
    (∀ D : Nat, D < 86400 →
      formatUptime D = hhmmPart (D / 3600) (D % 3600 / 60) ∧
      (formatUptime D).length = 5) ∧
    (∀ D : Nat, 86400 ≤ D → D < 172800 →
      formatUptime D = "1 day, " ++ hhmmPart (D % 86400 / 3600) (D % 86400 % 3600 / 60)) := by
  refine ⟨by decide, ?_, ?_⟩
  · intro D hD
    have hd : D / (24 * 3600) = 0 := Nat.div_eq_of_lt (by omega)
    have hm : D % (24 * 3600) = D := Nat.mod_eq_of_lt (by omega)
    have hmain : formatUptime D = hhmmPart (D / 3600) (D % 3600 / 60) := by
      simp only [formatUptime, hd, hm]
      simp
    refine ⟨hmain, ?_⟩
    rw [hmain]
    have hb : ∀ h2 < 24, ∀ m2 < 60, (hhmmPart h2 m2).length = 5 := by decide
    exact hb (D / 3600) (by omega) (D % 3600 / 60) (by omega)
  · intro D h1 h2
    have hd : D / (24 * 3600) = 1 := by omega
    have hday : uhub_itoa (intOfSizeT 1) ++ " day" ++ (if (1 : Nat) ≠ 1 then "s" else "")
        ++ ", " = "1 day, " := by decide
    simp only [formatUptime, hd]
    rw [if_pos (by omega), hday]

theorem C9_uptime_witness :
    formatUptime 3661 = hhmmPart 1 1 ∧ (formatUptime 3661).length = 5 ∧
    formatUptime 90061 = "1 day, " ++ hhmmPart 1 1 := by
  obtain ⟨h1, h2⟩ := C9_uptime_format.2.1 3661 (by omega)
  have h3 := C9_uptime_format.2.2 90061 (by omega) (by omega)
  exact ⟨h1.trans (by decide), h2, h3.trans (by decide)⟩

/-! ## Claims about the send queue -/

/-- C3 fails on the code as universally stated: an empty enqueued message
blocks the drain loop forever (the write callback is offered zero bytes
and returns 0, which the loop treats as would-block), so the bytes of a
later message are never handed over. -/
theorem C3_counterexample_empty_message :
    (drainN acceptAll 3 (enqueueAll [[], [7]])).2 = [] ∧
    (drainN acceptAll 3 (enqueueAll [[], [7]])).1.queue = [[], [7]] ∧
    ([[], [7]] : List (List Nat)).flatten = [7] ∧ ([] : List Nat) ≠ [7] := by
  decide

/-- C3 amended: for nonempty enqueued messages, one drain with the
accept-everything write function hands over exactly the concatenation of
the messages in enqueue order and empties the queue; with the
one-byte-per-call write function the same holds after as many drain
calls as there are bytes; and for every write function and any number of
drains, the bytes handed over form a prefix of the concatenation — no
byte duplicated, dropped, or reordered across message boundaries. -/
theorem C3_fifo_resumption (msgs : List (List Nat)) (hne : ∀ m ∈ msgs, m ≠ []) :
    ((hub_sendq_send (enqueueAll msgs) acceptAll).2.2 = msgs.flatten ∧
      (hub_sendq_send (enqueueAll msgs) acceptAll).1.queue = []) ∧
    ((drainN acceptOne (sumLens msgs) (enqueueAll msgs)).2 = msgs.flatten ∧
      (drainN acceptOne (sumLens msgs) (enqueueAll msgs)).1.queue = []) ∧
    (∀ (w : List Nat → Int) (n : Nat),
      ∃ t, (drainN w n (enqueueAll msgs)).2 ++ t = msgs.flatten) := by
  rw [enqueueAll_eq]
  refine ⟨?_, ?_, ?_⟩
  · simp only [hub_sendq_send, sendqSendGo_acceptAll msgs hne]
    exact ⟨trivial, trivial⟩
  · have hwf : sendqWfOffS msgs 0 := by
      cases msgs with
      | nil => rfl
      | cons m rest => exact List.length_pos.mpr (hne m (by simp))
    have hlen : (sendqRest msgs 0).length ≤ sumLens msgs := by
      rw [sendqRest_zero, List.length_flatten]
      exact le_of_eq rfl
    obtain ⟨h1, h2⟩ :=
      drainN_acceptOne_complete (sumLens msgs) msgs 0 (sumLens msgs) hne hwf hlen
    rw [sendqRest_zero] at h1
    exact ⟨h1, h2⟩
  · intro w n
    obtain ⟨t, ht⟩ := drainN_wire_front w n ⟨msgs, sumLens msgs, 0⟩
    rw [sendqRest_zero] at ht
    exact ⟨t, ht⟩

theorem C3_fifo_witness :
    (hub_sendq_send (enqueueAll [[1, 2], [3], [4, 5, 6]]) acceptAll).2.2 =
      [1, 2, 3, 4, 5, 6] ∧
    (drainN acceptOne 6 (enqueueAll [[1, 2], [3], [4, 5, 6]])).2 = [1, 2, 3, 4, 5, 6] := by
  have h := C3_fifo_resumption [[1, 2], [3], [4, 5, 6]] (by decide)
  exact ⟨h.1.1.trans (by decide), h.2.1.1.trans (by decide)⟩

lemma sendqAccounting_enq (st : HubSendq × Nat × Nat) (m : List Nat)
    (hst : sendqAccounting st) :
    sendqAccounting (hub_sendq_add st.1 m, st.2.1 + m.length, st.2.2) := by
  obtain ⟨hsz, hwf, hos, hacc⟩ := hst
  refine ⟨?_, ?_, ?_, ?_⟩
  · simp only [hub_sendq_add, sumLens, List.map_append, List.sum_append, List.map_cons,
      List.sum_cons, List.map_nil, List.sum_nil]
    simp only [sumLens] at hsz
    omega
  · rcases hq : st.1.queue with _ | ⟨m0, rest⟩
    · have h0 : st.1.offset = 0 := by
        rw [hq] at hwf
        exact hwf
      simp [hub_sendq_add, hq, sendqWfOff, h0]
    · rw [hq] at hwf
      simp only [hub_sendq_add, hq, List.cons_append, sendqWfOff]
      exact hwf
  · simp only [hub_sendq_add]
    omega
  · simp only [hub_sendq_add]
    omega

lemma sendqAccounting_drain (st : HubSendq × Nat × Nat) (w : List Nat → Int)
    (hw : BoundedWriter w) (hst : sendqAccounting st) :
    sendqAccounting ((hub_sendq_send st.1 w).1, st.2.1, st.2.2 + (hub_sendq_send st.1 w).2.1) := by
  obtain ⟨hsz, hwf, hos, hacc⟩ := hst
  rcases hs : sendqSendGo w st.1.queue st.1.offset with ⟨qs2, off2, removed, sent, wire⟩
  obtain ⟨hcons, hrem, hsuf, hsent⟩ :=
    sendqSendGo_spec w st.1.queue st.1.offset qs2 off2 removed sent wire hs
  have hwf2 := sendqSendGo_wfOff w st.1.queue st.1.offset qs2 off2 removed sent wire hs hwf
  have hsent2 := hsent hw
  simp only [hub_sendq_send, hs]
  have hsz2 : st.1.size - removed = sumLens qs2 := by omega
  have hlen1 : (sendqRest st.1.queue st.1.offset).length = sumLens st.1.queue - st.1.offset :=
    sendqRest_length _ _ hwf
  have hlen2 : (sendqRest qs2 off2).length = sumLens qs2 - off2 :=
    sendqRest_length _ _ hwf2
  have hclen := congrArg List.length hcons
  rw [List.length_append] at hclen
  have hoff2 : off2 ≤ sumLens qs2 := by
    rcases hq2 : qs2 with _ | ⟨m2, rest2⟩
    · rw [hq2] at hwf2
      have h0 : off2 = 0 := hwf2
      simp [h0, sumLens]
    · rw [hq2] at hwf2
      have hle : off2 ≤ m2.length := hwf2
      simp only [sumLens, List.map_cons, List.sum_cons]
      omega
  refine ⟨hsz2, hwf2, ?_, ?_⟩
  · show off2 ≤ st.1.size - removed
    omega
  · show st.2.2 + sent + (st.1.size - removed - off2) = st.2.1
    omega

lemma runSendOps_inv (ops : List SendqOp) :
    ∀ st, BoundedOps ops → sendqAccounting st → sendqAccounting (runSendOps st ops) := by
  induction ops with
  | nil =>
    intro st _ hst
    exact hst
  | cons op rest ih =>
    intro st hops hst
    have hrest : BoundedOps rest :=
      fun o ho w hw => hops o (List.mem_cons_of_mem op ho) w hw
    rcases st with ⟨q, te, ta⟩
    cases op with
    | enq m =>
      exact ih (hub_sendq_add q m, te + m.length, ta) hrest
        (sendqAccounting_enq (q, te, ta) m hst)
    | drain w =>
      have hw : BoundedWriter w := hops (SendqOp.drain w) (by simp) w rfl
      exact ih ((hub_sendq_send q w).1, te, ta + (hub_sendq_send q w).2.1) hrest
        (sendqAccounting_drain (q, te, ta) w hw hst)

/-- C4: after any sequence of enqueue and drain operations with write
functions that never over-report, unsent_bytes (size - offset) equals
the total bytes enqueued minus the total bytes the write functions have
accepted. -/
theorem C4_unsent_accounting (ops : List SendqOp) (hops : BoundedOps ops) :
    (runSendOps (⟨[], 0, 0⟩, 0, 0) ops).2.2 ≤ (runSendOps (⟨[], 0, 0⟩, 0, 0) ops).2.1 ∧
    hub_sendq_get_bytes (runSendOps (⟨[], 0, 0⟩, 0, 0) ops).1 =
      (runSendOps (⟨[], 0, 0⟩, 0, 0) ops).2.1 - (runSendOps (⟨[], 0, 0⟩, 0, 0) ops).2.2 := by
  have h0 : sendqAccounting (⟨[], 0, 0⟩, 0, 0) := by
    refine ⟨by simp [sumLens], rfl, le_refl 0, rfl⟩
  obtain ⟨hsz, hwf, hos, hacc⟩ := runSendOps_inv ops (⟨[], 0, 0⟩, 0, 0) hops h0
  constructor
  · omega
  · simp only [hub_sendq_get_bytes]
    omega

theorem C4_unsent_witness :
    hub_sendq_get_bytes
        (runSendOps (⟨[], 0, 0⟩, 0, 0) [SendqOp.enq [1, 2, 3], SendqOp.drain acceptOne]).1 =
      (runSendOps (⟨[], 0, 0⟩, 0, 0) [SendqOp.enq [1, 2, 3], SendqOp.drain acceptOne]).2.1 -
        (runSendOps (⟨[], 0, 0⟩, 0, 0) [SendqOp.enq [1, 2, 3], SendqOp.drain acceptOne]).2.2 := by
  refine (C4_unsent_accounting [SendqOp.enq [1, 2, 3], SendqOp.drain acceptOne] ?_).2
  intro op hop w hweq
  simp only [List.mem_cons, List.not_mem_nil, or_false] at hop
  rcases hop with rfl | rfl
  · exact SendqOp.noConfusion hweq
  · cases hweq
    exact boundedWriter_acceptOne
end Uhub
